import Mathlib

/-!
Shallow embedding of `scripts/analyze-test-mapping.py` (NeoSharp repository).

The script scans a Swift test corpus and a C# test corpus, extracts test
classes and test methods, pairs classes across corpora by exact or
normalized name, and emits a JSON coverage report plus an exit code.

Modelling conventions:
* Python `str` is Lean `String`; Python `float` ratios are `ℚ` (the
  arithmetic on the small integer counts involved is exact).
* A Python `dict` keyed by class name is an association list
  `List (String × TestClass)` in insertion order; assignment `d[k] = v`
  replaces the value in place when the key exists, else appends.
* Python `set` values (results of `set(...) - set(...)`) are `Finset String`,
  since the iteration order of a Python set is unspecified.
* Exceptions are `Except String` values; printed output is not modelled
  except where a claim mentions a diagnostic, which is tracked as a flag.
-/

/-! ### String helpers: `str.lower` and `str.replace(pat, "")` -/

/-- One step of Python `str.replace(pat, "")`: scan left to right, remove each
non-overlapping occurrence of `pat`.  `fuel` bounds recursion; `fuel = s.length`
suffices because every step consumes at least one character when `pat ≠ []`,
and when `pat = []` the scan leaves the string unchanged (as the guard fails). -/
def removeSubAux : Nat → List Char → List Char → List Char
  | 0, s, _ => s
  | _ + 1, [], _ => []
  | fuel + 1, c :: rest, pat =>
    if pat ≠ [] ∧ List.isPrefixOf pat (c :: rest) then
      removeSubAux fuel (List.drop pat.length (c :: rest)) pat
    else
      c :: removeSubAux fuel rest pat

/-- Python `s.replace(pat, "")`. -/
def pyDeleteAll (s pat : String) : String :=
  String.mk (removeSubAux s.data.length s.data pat.data)

/-- Python `s.lower()` (ASCII identifiers, per the regexes `\w+` in the script). -/
def pyLower (s : String) : String :=
  String.mk (s.data.map Char.toLower)

/-! ### Data model (`TestClass`, `ConversionMapping`) -/

/-- `TestClass` dataclass of the script.  The source field `imports` is named
`deps` here (its contents are never used by the analysis). -/
structure TestClass where
  name : String
  file_path : String
  test_methods : List String
  deps : List String
  framework : String
deriving DecidableEq

/-- `ConversionMapping` dataclass.  `missing_tests` and `extra_tests` are
built in the source as `list(set - set)`, whose order is unspecified, so they
are carried as finite sets. -/
structure ConversionMapping where
  swift_file : String
  csharp_file : String
  swift_tests : List String
  csharp_tests : List String
  missing_tests : Finset String
  extra_tests : Finset String
  conversion_rate : ℚ
deriving DecidableEq

/-! ### `TestMappingAnalyzer._names_match` -/

/-- The normalization inside `_names_match`:
`name.lower().replace("tests", "").replace("test", "")`. -/
def normalizeClassName (s : String) : String :=
  pyDeleteAll (pyDeleteAll (pyLower s) "tests") "test"

/-- `TestMappingAnalyzer._names_match`. -/
def namesMatch (swift_name csharp_name : String) : Bool :=
  normalizeClassName swift_name == normalizeClassName csharp_name

/-! ### `TestMappingAnalyzer._create_mapping` -/

/-- `TestMappingAnalyzer._create_mapping`. -/
def createMapping (swift_test csharp_test : Option TestClass) : ConversionMapping :=
  let swift_file := match swift_test with | some t => t.file_path | none => "Missing"
  let csharp_file := match csharp_test with | some t => t.file_path | none => "Missing"
  let swift_tests := match swift_test with | some t => t.test_methods | none => []
  let csharp_tests := match csharp_test with | some t => t.test_methods | none => []
  let swift_set := swift_tests.toFinset
  let csharp_set := csharp_tests.toFinset
  let missing_tests := swift_set \ csharp_set
  let extra_tests := csharp_set \ swift_set
  let conversion_rate : ℚ :=
    if ¬ swift_tests.isEmpty then
      ((csharp_set ∩ swift_set).card : ℚ) / (swift_set.card : ℚ) * 100
    else if ¬ csharp_tests.isEmpty then
      100
    else
      0
  { swift_file := swift_file, csharp_file := csharp_file,
    swift_tests := swift_tests, csharp_tests := csharp_tests,
    missing_tests := missing_tests, extra_tests := extra_tests,
    conversion_rate := conversion_rate }

/-! ### `TestMappingAnalyzer.create_mappings` -/

/-- The per-Swift-unit candidate search of `create_mappings` (lines 148–158):
first the exact dictionary lookup `swift_name in self.csharp_tests`, else the
first corpus-B entry (in iteration order) whose name fuzzy-matches.  Each loop
iteration is independent of the accumulated state, so the loop body is this
pure function of the corpus-B dictionary and the Swift name. -/
def matchFor (csharpCorpus : List (String × TestClass)) (swift_name : String) :
    Option TestClass :=
  match csharpCorpus.find? (fun p => p.1 == swift_name) with
  | some p => some p.2
  | none => (csharpCorpus.find? (fun p => namesMatch swift_name p.1)).map (fun p => p.2)

/-- The contents of `mapped_csharp` after the first loop of `create_mappings`:
the name of every corpus-B unit consumed by some Swift unit. -/
def mappedNames (swiftCorpus csharpCorpus : List (String × TestClass)) : List String :=
  swiftCorpus.filterMap (fun p => (matchFor csharpCorpus p.1).map (fun t => t.name))

/-- `TestMappingAnalyzer.create_mappings`: one mapping per Swift unit in
corpus order, then one mapping per never-consumed corpus-B unit. -/
def createMappings (swiftCorpus csharpCorpus : List (String × TestClass)) :
    List ConversionMapping :=
  (swiftCorpus.map (fun p => createMapping (some p.2) (matchFor csharpCorpus p.1)))
  ++ ((csharpCorpus.filter
        (fun q => !(mappedNames swiftCorpus csharpCorpus).contains q.1)).map
      (fun q => createMapping none (some q.2)))

/-! ### Corpus construction (`find_swift_tests` / `find_csharp_tests` loops) -/

/-- Python `d[k] = v` on a dict represented as an association list in
insertion order: replace in place when the key exists, else append. -/
def dictInsert (d : List (String × TestClass)) (k : String) (v : TestClass) :
    List (String × TestClass) :=
  if d.any (fun p => p.1 == k) then
    d.map (fun p => if p.1 == k then (k, v) else p)
  else
    d ++ [(k, v)]

/-- One iteration of the scanning loop shared by `find_swift_tests` and
`find_csharp_tests`: a successfully extracted `TestClass` is stored under its
class name (`self.swift_tests[test_class.name] = test_class`); a raised
exception is caught and logged (the error counter) and the file is skipped. -/
def scanStep (acc : List (String × TestClass) × Nat) (r : Except String TestClass) :
    List (String × TestClass) × Nat :=
  match r with
  | Except.ok tc => (dictInsert acc.1 tc.name tc, acc.2)
  | Except.error _ => (acc.1, acc.2 + 1)

/-- The scanning loop of `find_swift_tests` / `find_csharp_tests` over the
per-file extraction results.  Returns the corpus and the number of logged
errors. -/
def scanFold (results : List (Except String TestClass)) :
    List (String × TestClass) × Nat :=
  results.foldl scanStep ([], 0)

/-- `TestMappingAnalyzer.find_swift_tests` control flow.  `pathExists`
abstracts `Path.exists`; `scanResults p` abstracts the per-file extraction
results under root `p`.  In the branch where an explicit path was supplied
but does not exist, the warning f-string evaluates
`[str(p) for p in possible_paths]` while the local `possible_paths` was never
assigned, so Python raises `NameError`; that is the `Except.error` case. -/
def findSwiftTests (basePath : String) (explicitPath : Option String)
    (pathExists : String → Bool)
    (scanResults : String → List (Except String TestClass)) :
    Except String (List (String × TestClass)) :=
  match explicitPath with
  | none =>
    let possible_paths := [basePath ++ "/../NeoSwift-Reference/Tests",
                           basePath ++ "/../NeoSwift/Tests",
                           basePath ++ "/reference/swift-tests"]
    match possible_paths.find? pathExists with
    | none => Except.ok []
    | some p => Except.ok (scanFold (scanResults p)).1
  | some p =>
    if pathExists p then Except.ok (scanFold (scanResults p)).1
    else Except.error "NameError: name possible_paths is not defined"

/-! ### `TestMappingAnalyzer.generate_report` (summary part) -/

/-- The `summary` object of the report.  `detailed_mappings`,
`missing_files` and `conversion_issues` are derived lists the claims do not
touch; they are omitted. -/
structure ReportSummary where
  total_swift_tests : Nat
  total_csharp_tests : Nat
  total_mappings : Nat
  fully_converted : Nat
  partially_converted : Nat
  missing_conversions : Nat
  extra_csharp : Nat
  overall_conversion_rate : ℚ
deriving DecidableEq

/-- `total_swift_methods` accumulated by the loop in `generate_report`:
`if mapping.swift_tests: total_swift_methods += len(mapping.swift_tests)`. -/
def totalSwiftMethods (mappings : List ConversionMapping) : Nat :=
  mappings.foldl
    (fun t m => if ¬ m.swift_tests.isEmpty then t + m.swift_tests.length else t) 0

/-- `total_converted_methods` accumulated by the loop in `generate_report`:
`converted_count = len(set(mapping.swift_tests) & set(mapping.csharp_tests))`. -/
def totalConvertedMethods (mappings : List ConversionMapping) : Nat :=
  mappings.foldl
    (fun t m =>
      if ¬ m.swift_tests.isEmpty then
        t + (m.swift_tests.toFinset ∩ m.csharp_tests.toFinset).card
      else t)
    0

/-- The per-mapping classification counters of `generate_report`. -/
def classifyCounts (mappings : List ConversionMapping) : Nat × Nat × Nat × Nat :=
  mappings.foldl
    (fun acc m =>
      let (fully, partially, missing, extra) := acc
      if m.swift_file == "Missing" then (fully, partially, missing, extra + 1)
      else if m.csharp_file == "Missing" then (fully, partially, missing + 1, extra)
      else if m.conversion_rate == (100 : ℚ) then (fully + 1, partially, missing, extra)
      else (fully, partially + 1, missing, extra))
    (0, 0, 0, 0)

/-- `TestMappingAnalyzer.generate_report`, restricted to the summary. -/
def generateSummary (nSwift nCsharp : Nat) (mappings : List ConversionMapping) :
    ReportSummary :=
  let counts := classifyCounts mappings
  let tsm := totalSwiftMethods mappings
  let tcm := totalConvertedMethods mappings
  { total_swift_tests := nSwift
    total_csharp_tests := nCsharp
    total_mappings := mappings.length
    fully_converted := counts.1
    partially_converted := counts.2.1
    missing_conversions := counts.2.2.1
    extra_csharp := counts.2.2.2
    overall_conversion_rate :=
      if 0 < tsm then (tcm : ℚ) / (tsm : ℚ) * 100 else 0 }

/-! ### `run_analysis` and `main` -/

/-- Observable outcome of one run: whether the empty-corpora diagnostic was
printed, which report files were written (in order), and the exit status. -/
structure MainOutcome where
  emptyDiagnostic : Bool
  filesWritten : List String
  exitCode : Nat
deriving DecidableEq

/-- `run_analysis` (after scanning) followed by the tail of `main`:
* if both corpora are empty, `run_analysis` prints the diagnostic and
  returns `{}` before any report is written; `main` then calls
  `save_report({}, args.output)` when `args.output` differs from the default
  filename, and `{} and ... >= 90` is falsy so the exit status is 1;
* otherwise `run_analysis` builds the mappings and the report, saves it
  under the default filename, `main` saves it again under `args.output`
  when that differs, and the exit status is 0 iff the report's overall
  conversion rate is ≥ 90. -/
def runMain (swiftCorpus csharpCorpus : List (String × TestClass))
    (outputArg : String) : MainOutcome :=
  if swiftCorpus.isEmpty ∧ csharpCorpus.isEmpty then
    { emptyDiagnostic := true
      filesWritten :=
        if outputArg = "test-mapping-analysis.json" then [] else [outputArg]
      exitCode := 1 }
  else
    let mappings := createMappings swiftCorpus csharpCorpus
    let summary := generateSummary swiftCorpus.length csharpCorpus.length mappings
    { emptyDiagnostic := false
      filesWritten :=
        "test-mapping-analysis.json" ::
          (if outputArg = "test-mapping-analysis.json" then [] else [outputArg])
      exitCode := if 90 ≤ summary.overall_conversion_rate then 0 else 1 }

/-! ### Derived notions used to state the claims -/

/-- Number of Swift units that the Pairer pairs with some corpus-B unit
("matched pairs"). -/
def matchedPairCount (swiftCorpus csharpCorpus : List (String × TestClass)) : Nat :=
  (swiftCorpus.filter (fun p => (matchFor csharpCorpus p.1).isSome)).length

/-- Number of Swift units for which no corpus-B candidate is found
("unmatched-A"). -/
def unmatchedSwiftCount (swiftCorpus csharpCorpus : List (String × TestClass)) : Nat :=
  (swiftCorpus.filter (fun p => (matchFor csharpCorpus p.1).isNone)).length

/-- Number of corpus-B units never consumed by a pairing ("unmatched-B"). -/
def unmatchedCsharpCount (swiftCorpus csharpCorpus : List (String × TestClass)) : Nat :=
  (csharpCorpus.filter
    (fun q => !(mappedNames swiftCorpus csharpCorpus).contains q.1)).length

/-- The last successfully extracted unit whose class name is `n` among the
scan results: the value the corpus dictionary holds under key `n` after the
scanning loop. -/
def lastOkNamed (rs : List (Except String TestClass)) (n : String) :
    Option TestClass :=
  match rs with
  | [] => none
  | r :: rs' =>
    match lastOkNamed rs' n with
    | some u => some u
    | none =>
      match r with
      | Except.ok tc => if tc.name == n then some tc else none
      | Except.error _ => none

/-! ### Concrete corpora used for counterexamples and witnesses -/

def exSwiftUnit : TestClass :=
  ⟨"AccountTests", "Account.swift", ["a", "b", "c"], [], "swift"⟩

def exCsharpUnit : TestClass :=
  ⟨"AccountTests", "Account.cs", ["a", "b"], [], "csharp"⟩

def exSwiftCorpus : List (String × TestClass) := [("AccountTests", exSwiftUnit)]

def exCsharpCorpus : List (String × TestClass) := [("AccountTests", exCsharpUnit)]

def dupSwiftA1 : TestClass := ⟨"AccountTests", "A1.swift", [], [], "swift"⟩

def dupSwiftA2 : TestClass := ⟨"AccountTest", "A2.swift", [], [], "swift"⟩

def dupCsharpB : TestClass := ⟨"AccountTests", "B.cs", [], [], "csharp"⟩

/-- Two Swift units whose names both match the single C# unit: the first by
exact name, the second only after normalization. -/
def dupSwiftCorpus : List (String × TestClass) :=
  [("AccountTests", dupSwiftA1), ("AccountTest", dupSwiftA2)]

def dupCsharpCorpus : List (String × TestClass) :=
  [("AccountTests", dupCsharpB)]

def exactCsharpUnit : TestClass := ⟨"AccountTests", "B1.cs", [], [], "csharp"⟩

def fuzzyCsharpUnit : TestClass := ⟨"accounttest", "B2.cs", [], [], "csharp"⟩

/-- Corpus-B dictionary holding both an exact-name unit and a distinct unit
matching `"AccountTests"` only after normalization; the normalized-only
candidate comes first in iteration order. -/
def mixedCsharpCorpus : List (String × TestClass) :=
  [("accounttest", fuzzyCsharpUnit), ("AccountTests", exactCsharpUnit)]

/-- A one-element mapping list used to witness the aggregate-rate claim. -/
def exMappingList : List ConversionMapping :=
  [createMapping (some exSwiftUnit) (some exCsharpUnit)]

/-- An earlier-scanned and a later-scanned file yielding the same class name. -/
def earlyUnit : TestClass := ⟨"AccountTests", "A1.swift", [], [], "swift"⟩

def lateUnit : TestClass := ⟨"AccountTests", "A2.swift", [], [], "swift"⟩

def dupScanResults : List (Except String TestClass) :=
  [Except.ok earlyUnit, Except.ok lateUnit]

/-! ### Generic helper lemmas -/

/-- Shifting the error counter does not change the corpus a scan produces,
and adds to the final counter. -/
lemma foldl_scanStep_shift (l : List (Except String TestClass)) :
    ∀ (c : List (String × TestClass)) (k : Nat),
      l.foldl scanStep (c, k)
        = ((l.foldl scanStep (c, 0)).1, k + (l.foldl scanStep (c, 0)).2) := by
  induction l with
  | nil => intro c k; simp
  | cons r l ih =>
    intro c k
    cases r with
    | ok tc =>
      simp only [List.foldl_cons, scanStep]
      exact ih (dictInsert c tc.name tc) k
    | error e =>
      simp only [List.foldl_cons, scanStep]
      rw [ih c (k + 1), ih c 1, Nat.add_assoc]

/-! ### C6 -/

/-- C6: the normalized-match predicate `_names_match` declares two
identifiers equal exactly when they are equal after lowercasing and removing
the substrings "tests" and "test"; in particular `"AccountTests"` and
`"accounttest"` match. -/
theorem claim_C6_normalized_match :
    (∀ a b, namesMatch a b = true ↔
      pyDeleteAll (pyDeleteAll (pyLower a) "tests") "test"
        = pyDeleteAll (pyDeleteAll (pyLower b) "tests") "test")
    ∧ namesMatch "AccountTests" "accounttest" = true := by
  constructor
  · intro a b
    simp [namesMatch, normalizeClassName]
  · decide

/-! ### C3 -/

/-- C3: `_create_mapping` computes
`coverageRatio = |set A ∩ set B| / |set A| * 100` when the Swift test list is
nonempty, `100` when only the C# list is nonempty, `0` when both are empty;
at testNamesA = {"a","b","c"}, testNamesB = {"a","b"} the ratio is exactly
`200/3` with missingNames = {"c"} and extraNames = ∅. -/
theorem claim_C3_coverage_ratio :
    (∀ (A B : List String) (nA fA fwA nB fB fwB : String) (dA dB : List String),
      (createMapping (some ⟨nA, fA, A, dA, fwA⟩)
          (some ⟨nB, fB, B, dB, fwB⟩)).conversion_rate =
        (if A ≠ [] then
          ((A.toFinset ∩ B.toFinset).card : ℚ) / (A.toFinset.card : ℚ) * 100
         else if B ≠ [] then 100 else 0))
    ∧ ((createMapping (some ⟨"T", "a.swift", ["a", "b", "c"], [], "swift"⟩)
          (some ⟨"T", "b.cs", ["a", "b"], [], "csharp"⟩)).conversion_rate = 200 / 3
       ∧ (createMapping (some ⟨"T", "a.swift", ["a", "b", "c"], [], "swift"⟩)
          (some ⟨"T", "b.cs", ["a", "b"], [], "csharp"⟩)).missing_tests = {"c"}
       ∧ (createMapping (some ⟨"T", "a.swift", ["a", "b", "c"], [], "swift"⟩)
          (some ⟨"T", "b.cs", ["a", "b"], [], "csharp"⟩)).extra_tests = ∅) := by
  refine ⟨?_, ?_, by decide, by decide⟩
  · intro A B nA fA fwA nB fB fwB dA dB
    rcases A with _ | ⟨a, A⟩
    · rcases B with _ | ⟨b, B⟩ <;> simp [createMapping]
    · simp [createMapping, Finset.inter_comm]
  · show (if ¬ (["a", "b", "c"] : List String).isEmpty then
        (((["a", "b"] : List String).toFinset
            ∩ (["a", "b", "c"] : List String).toFinset).card : ℚ)
          / ((["a", "b", "c"] : List String).toFinset.card : ℚ) * 100
      else if ¬ (["a", "b"] : List String).isEmpty then 100 else 0) = 200 / 3
    rw [if_pos (show ¬ (["a", "b", "c"] : List String).isEmpty from by decide),
      show ((["a", "b"] : List String).toFinset
          ∩ (["a", "b", "c"] : List String).toFinset).card = 2 from by decide,
      show (["a", "b", "c"] : List String).toFinset.card = 3 from by decide]
    norm_num

/-! ### C8 -/

/-- C8 (code bug): with an explicitly supplied Swift directory that does not
exist, `find_swift_tests` evaluates `possible_paths` in the warning f-string
without it ever being assigned, so the call raises `NameError` instead of
warning and leaving the reference corpus empty; auto-detection with no
existing candidate does return the empty corpus without raising. -/
theorem claim_C8_missing_swift_dir :
    findSwiftTests "." (some "missing-dir") (fun _ => false) (fun _ => [])
      = Except.error "NameError: name possible_paths is not defined"
    ∧ findSwiftTests "." none (fun _ => false) (fun _ => []) = Except.ok [] :=
  ⟨rfl, rfl⟩

/-! ### C9 -/

/-- C9 counterexample: with both corpora empty and a requested output
filename different from the default, `main` still calls
`save_report(report, args.output)` on the empty report, so a report file is
written. -/
theorem claim_C9_counterexample :
    ¬ ((runMain [] [] "custom.json").filesWritten = []) := by decide

/-- C9 amended: with both corpora empty the run emits the empty-corpora
diagnostic and exits with failure status; no report file is written when the
default output filename is requested, but a non-default requested filename
receives the empty report. -/
theorem claim_C9_amended :
    ∀ out : String,
      (runMain [] [] out).emptyDiagnostic = true
      ∧ (runMain [] [] out).exitCode = 1
      ∧ (runMain [] [] out).filesWritten
          = (if out = "test-mapping-analysis.json" then [] else [out]) :=
  fun _ => ⟨rfl, rfl, rfl⟩

/-! ### C7 -/

/-- C7: an exception while extracting one file is caught and counted
(logged), the file is excluded from the corpus, and the scan of the
remaining files proceeds exactly as if the malformed file were absent. -/
theorem claim_C7_extraction_skip :
    ∀ (pre post : List (Except String TestClass)) (e : String),
      (scanFold (pre ++ Except.error e :: post)).1 = (scanFold (pre ++ post)).1
      ∧ (scanFold (pre ++ Except.error e :: post)).2
          = (scanFold (pre ++ post)).2 + 1 := by
  intro pre post e
  unfold scanFold
  rw [List.foldl_append, List.foldl_append, List.foldl_cons]
  rcases h : pre.foldl scanStep ([], 0) with ⟨c, k⟩
  have hstep : scanStep (c, k) (Except.error e) = (c, k + 1) := rfl
  rw [hstep, foldl_scanStep_shift post c (k + 1), foldl_scanStep_shift post c k]
  exact ⟨rfl, by omega⟩

/-! ### C5 -/

/-- C5: when corpus B holds a unit whose identifier equals the Swift unit's
identifier exactly and a different unit matching only after normalization,
`create_mappings` pairs the Swift unit with the exact-identifier unit and
never with the normalized-only candidate. -/
theorem claim_C5_exact_preferred :
    ∀ (sc cc : List (String × TestClass)) (n : String) (t : TestClass)
      (q fz : String × TestClass),
      (n, t) ∈ sc →
      cc.find? (fun p => p.1 == n) = some q →
      fz ∈ cc → namesMatch n fz.1 = true → fz.2 ≠ q.2 →
      matchFor cc n = some q.2
      ∧ matchFor cc n ≠ some fz.2
      ∧ createMapping (some t) (some q.2) ∈ createMappings sc cc := by
  intro sc cc n t q fz hmem hfind hfz hnm hne
  have h1 : matchFor cc n = some q.2 := by
    unfold matchFor
    rw [hfind]
  refine ⟨h1, ?_, ?_⟩
  · rw [h1]
    intro hcon
    exact hne (Option.some.inj hcon).symm
  · unfold createMappings
    apply List.mem_append_left
    have h2 := List.mem_map_of_mem
      (fun p : String × TestClass => createMapping (some p.2) (matchFor cc p.1)) hmem
    simpa [h1] using h2

/-- Witness for C5 at concrete corpora: the normalized-only candidate comes
first in corpus-B iteration order, yet the exact-identifier unit is chosen. -/
theorem claim_C5_exact_preferred_witness :
    matchFor mixedCsharpCorpus "AccountTests" = some exactCsharpUnit
    ∧ matchFor mixedCsharpCorpus "AccountTests" ≠ some fuzzyCsharpUnit
    ∧ createMapping (some exSwiftUnit) (some exactCsharpUnit)
        ∈ createMappings exSwiftCorpus mixedCsharpCorpus :=
  claim_C5_exact_preferred exSwiftCorpus mixedCsharpCorpus "AccountTests" exSwiftUnit
    ("AccountTests", exactCsharpUnit) ("accounttest", fuzzyCsharpUnit)
    (by decide) (by decide) (by decide) (by decide) (by decide)

/-! ### C2 -/

/-- C2: the process exit status is 0 exactly when the overall conversion
rate of the generated report is ≥ 90, and 1 otherwise; when no test units
were found in either corpus the run emits the diagnostic and exits 1. -/
theorem claim_C2_exit_status :
    ∀ (sc cc : List (String × TestClass)) (out : String),
      ((sc = [] ∧ cc = []) →
        (runMain sc cc out).exitCode = 1
        ∧ (runMain sc cc out).emptyDiagnostic = true)
      ∧ (¬ (sc = [] ∧ cc = []) →
        ((runMain sc cc out).exitCode = 0 ↔
          90 ≤ (generateSummary sc.length cc.length
            (createMappings sc cc)).overall_conversion_rate)) := by
  intro sc cc out
  constructor
  · rintro ⟨rfl, rfl⟩
    exact ⟨rfl, rfl⟩
  · intro h
    have hb : ¬ ((sc.isEmpty : Prop) ∧ (cc.isEmpty : Prop)) := by
      simpa [List.isEmpty_iff] using h
    unfold runMain
    rw [if_neg hb]
    by_cases h90 : 90 ≤ (generateSummary sc.length cc.length
        (createMappings sc cc)).overall_conversion_rate
    · simp [h90]
    · simp [h90]

/-- Witness for C2: the empty run exits 1 with the diagnostic; a nonempty
run's exit status is characterized by its report's overall rate. -/
theorem claim_C2_exit_status_witness :
    ((runMain [] [] "o.json").exitCode = 1
      ∧ (runMain [] [] "o.json").emptyDiagnostic = true)
    ∧ ((runMain exSwiftCorpus exCsharpCorpus "test-mapping-analysis.json").exitCode = 0 ↔
        90 ≤ (generateSummary exSwiftCorpus.length exCsharpCorpus.length
          (createMappings exSwiftCorpus exCsharpCorpus)).overall_conversion_rate) :=
  ⟨(claim_C2_exit_status [] [] "o.json").1 ⟨rfl, rfl⟩,
   (claim_C2_exit_status exSwiftCorpus exCsharpCorpus "test-mapping-analysis.json").2
     (by decide)⟩


/-! ### C4 -/

/-- The `total_swift_methods` accumulator of `generate_report` sums the
lengths of all Swift test lists (the loop skips empty lists, which
contribute 0 anyway). -/
lemma totalSwiftMethods_eq_sum (l : List ConversionMapping) :
    ∀ k, l.foldl
        (fun t m => if ¬ m.swift_tests.isEmpty then t + m.swift_tests.length else t) k
      = k + (l.map (fun m => m.swift_tests.length)).sum := by
  induction l with
  | nil => intro k; simp
  | cons m l ih =>
    intro k
    by_cases h : (m.swift_tests.isEmpty : Prop)
    · rw [List.foldl_cons, if_neg (not_not_intro h), ih]
      have hnil : m.swift_tests = [] := by simpa [List.isEmpty_iff] using h
      simp [hnil]
    · rw [List.foldl_cons, if_pos h, ih, List.map_cons, List.sum_cons, Nat.add_assoc]

/-- The `total_converted_methods` accumulator of `generate_report` sums the
matched-name counts of all mappings. -/
lemma totalConvertedMethods_eq_sum (l : List ConversionMapping) :
    ∀ k, l.foldl
        (fun t m => if ¬ m.swift_tests.isEmpty then
            t + (m.swift_tests.toFinset ∩ m.csharp_tests.toFinset).card
          else t) k
      = k + (l.map (fun m =>
          (m.swift_tests.toFinset ∩ m.csharp_tests.toFinset).card)).sum := by
  induction l with
  | nil => intro k; simp
  | cons m l ih =>
    intro k
    by_cases h : (m.swift_tests.isEmpty : Prop)
    · rw [List.foldl_cons, if_neg (not_not_intro h), ih]
      have hnil : m.swift_tests = [] := by simpa [List.isEmpty_iff] using h
      simp [hnil]
    · rw [List.foldl_cons, if_pos h, ih, List.map_cons, List.sum_cons, Nat.add_assoc]

/-- When every mapping with a nonempty Swift test list has a present Swift
unit, restricting the length sum to mappings with a present unit changes
nothing. -/
lemma sum_len_filter_missing (l : List ConversionMapping)
    (h : ∀ m ∈ l, m.swift_tests ≠ [] → m.swift_file ≠ "Missing") :
    ((l.filter (fun m => m.swift_file != "Missing")).map
        (fun m => m.swift_tests.length)).sum
      = (l.map (fun m => m.swift_tests.length)).sum := by
  induction l with
  | nil => simp
  | cons m l ih =>
    have ih' := ih (fun x hx hne => h x (List.mem_cons_of_mem _ hx) hne)
    by_cases hf : m.swift_file = "Missing"
    · have hnil : m.swift_tests = [] := by
        by_contra hne
        exact h m (List.mem_cons_self _ _) hne hf
      rw [List.filter_cons]
      simp [hf, hnil, ih']
    · rw [List.filter_cons]
      simp [hf, ih']

/-- C4: the overall conversion rate of the generated report equals the sum
of matched-name counts over all mappings, divided by the sum of Swift test
counts over mappings whose Swift unit is present, times 100 — and 0 when
that denominator is 0. -/
theorem claim_C4_overall_rate :
    ∀ (nS nC : Nat) (mappings : List ConversionMapping),
      (∀ m ∈ mappings, m.swift_tests ≠ [] → m.swift_file ≠ "Missing") →
      (generateSummary nS nC mappings).overall_conversion_rate =
        (if ((mappings.filter (fun m => m.swift_file != "Missing")).map
              (fun m => m.swift_tests.length)).sum = 0 then (0 : ℚ)
         else ((((mappings.map (fun m =>
                  (m.swift_tests.toFinset ∩ m.csharp_tests.toFinset).card)).sum : ℕ) : ℚ)
            / ((((mappings.filter (fun m => m.swift_file != "Missing")).map
                  (fun m => m.swift_tests.length)).sum : ℕ) : ℚ) * 100)) := by
  intro nS nC l h
  have h1 : totalSwiftMethods l = (l.map (fun m => m.swift_tests.length)).sum :=
    (totalSwiftMethods_eq_sum l 0).trans (Nat.zero_add _)
  have h2 : totalConvertedMethods l
      = (l.map (fun m =>
          (m.swift_tests.toFinset ∩ m.csharp_tests.toFinset).card)).sum :=
    (totalConvertedMethods_eq_sum l 0).trans (Nat.zero_add _)
  have h3 := sum_len_filter_missing l h
  show (if 0 < totalSwiftMethods l then
      (totalConvertedMethods l : ℚ) / (totalSwiftMethods l : ℚ) * 100 else 0) = _
  rw [h1, h2, h3]
  rcases Nat.eq_zero_or_pos ((l.map (fun m => m.swift_tests.length)).sum) with h0 | h0
  · rw [h0]
    simp
  · rw [if_pos h0, if_neg (by omega)]

/-- Witness for C4 on a concrete one-mapping list. -/
theorem claim_C4_overall_rate_witness :
    (generateSummary 1 1 exMappingList).overall_conversion_rate =
      (if ((exMappingList.filter (fun m => m.swift_file != "Missing")).map
            (fun m => m.swift_tests.length)).sum = 0 then (0 : ℚ)
       else ((((exMappingList.map (fun m =>
                (m.swift_tests.toFinset ∩ m.csharp_tests.toFinset).card)).sum : ℕ) : ℚ)
          / ((((exMappingList.filter (fun m => m.swift_file != "Missing")).map
                (fun m => m.swift_tests.length)).sum : ℕ) : ℚ) * 100)) :=
  claim_C4_overall_rate 1 1 exMappingList (by decide)

/-! ### C1 -/

/-- Splitting a list by whether the candidate search succeeds partitions its
length. -/
lemma length_eq_matched_add_unmatched (sc cc : List (String × TestClass)) :
    sc.length = matchedPairCount sc cc + unmatchedSwiftCount sc cc := by
  unfold matchedPairCount unmatchedSwiftCount
  induction sc with
  | nil => simp
  | cons p sc ih =>
    cases h : matchFor cc p.1 <;> simp [List.filter_cons, h] <;> omega

/-- In a list whose images under `g` are pairwise distinct, exactly one
element shares its image with a given member. -/
lemma countP_eq_one_of_nodup_map {α : Type} (g : α → String) (l : List α) (a : α)
    (hnd : (l.map g).Nodup) (ha : a ∈ l) :
    l.countP (fun x => g x == g a) = 1 := by
  induction l with
  | nil => cases ha
  | cons b l ih =>
    rw [List.map_cons, List.nodup_cons] at hnd
    rcases List.mem_cons.mp ha with rfl | ha'
    · rw [List.countP_cons, if_pos (by simp)]
      have hz : l.countP (fun x => g x == g a) = 0 := by
        rw [List.countP_eq_zero]
        intro x hx
        simp only [beq_iff_eq]
        intro hgx
        exact hnd.1 (hgx ▸ List.mem_map_of_mem g hx)
      rw [hz]
    · rw [List.countP_cons, if_neg ?_, Nat.add_zero]
      · exact ih hnd.2 ha'
      · simp only [beq_iff_eq]
        intro hgb
        exact hnd.1 (hgb ▸ List.mem_map_of_mem g ha')

/-- A unit returned by the candidate search is a value of the corpus-B
dictionary. -/
lemma matchFor_mem (cc : List (String × TestClass)) (n : String) (u : TestClass)
    (h : matchFor cc n = some u) : ∃ k, (k, u) ∈ cc := by
  unfold matchFor at h
  cases hf : cc.find? (fun p => p.1 == n) with
  | some p =>
    rw [hf] at h
    refine ⟨p.1, ?_⟩
    have hp := List.mem_of_find?_eq_some hf
    have : p.2 = u := by injection h
    rw [← this, Prod.mk.eta]
    exact hp
  | none =>
    rw [hf] at h
    cases hg : cc.find? (fun p => namesMatch n p.1) with
    | none => rw [hg] at h; cases h
    | some q =>
      rw [hg] at h
      refine ⟨q.1, ?_⟩
      have hq := List.mem_of_find?_eq_some hg
      have : q.2 = u := by injection h
      rw [← this, Prod.mk.eta]
      exact hq

/-- In a dictionary with pairwise-distinct keys, a key determines its value. -/
lemma assoc_value_unique (cc : List (String × TestClass))
    (hnd : (cc.map Prod.fst).Nodup) (k : String) (u v : TestClass)
    (hu : (k, u) ∈ cc) (hv : (k, v) ∈ cc) : u = v := by
  induction cc with
  | nil => cases hu
  | cons p cc ih =>
    rw [List.map_cons, List.nodup_cons] at hnd
    rcases List.mem_cons.mp hu with hu0 | hu' <;>
      rcases List.mem_cons.mp hv with hv0 | hv'
    · rw [← hu0] at hv0
      injection hv0 with _ h
      exact h.symm
    · exfalso
      apply hnd.1
      rw [← hu0]
      have hmem : (k, v).1 ∈ cc.map Prod.fst := List.mem_map_of_mem Prod.fst hv'
      exact hmem
    · exfalso
      apply hnd.1
      rw [← hv0]
      have hmem : (k, u).1 ∈ cc.map Prod.fst := List.mem_map_of_mem Prod.fst hu'
      exact hmem
    · exact ih hnd.2 hu' hv'

/-- C1 amended: every corpus-A unit appears in exactly one mapping; every
corpus-B unit appears in at least one mapping (a corpus-B unit matched by
several corpus-A units appears in each of their mappings); and the number of
mappings equals matched pairs + unmatched-A + unmatched-B. -/
theorem claim_C1_amended :
    ∀ (sc cc : List (String × TestClass)),
      ((createMappings sc cc).length
        = matchedPairCount sc cc + unmatchedSwiftCount sc cc
          + unmatchedCsharpCount sc cc)
      ∧ (∀ p ∈ sc, (sc.map (fun r => r.2.file_path)).Nodup →
          p.2.file_path ≠ "Missing" →
          (createMappings sc cc).countP (fun m => m.swift_file == p.2.file_path) = 1)
      ∧ (∀ q ∈ cc, (∀ r ∈ cc, r.1 = r.2.name) → (cc.map Prod.fst).Nodup →
          ∃ m ∈ createMappings sc cc, m.csharp_file = q.2.file_path) := by
  intro sc cc
  refine ⟨?_, ?_, ?_⟩
  · unfold createMappings unmatchedCsharpCount
    rw [List.length_append, List.length_map, List.length_map,
      length_eq_matched_add_unmatched sc cc]
  · intro p hp hnd hnm
    unfold createMappings
    rw [List.countP_append]
    have hextras : ((cc.filter fun q => !(mappedNames sc cc).contains q.1).map
        (fun q => createMapping none (some q.2))).countP
          (fun m => m.swift_file == p.2.file_path) = 0 := by
      rw [List.countP_eq_zero]
      intro m hm
      rcases List.mem_map.mp hm with ⟨q, _, rfl⟩
      show ¬ ((createMapping none (some q.2)).swift_file == p.2.file_path) = true
      have hmf : (createMapping none (some q.2)).swift_file = "Missing" := rfl
      rw [hmf]
      simp only [beq_iff_eq]
      exact fun hcon => hnm hcon.symm
    rw [hextras, Nat.add_zero, List.countP_map]
    exact countP_eq_one_of_nodup_map (fun r : String × TestClass => r.2.file_path)
      sc p hnd hp
  · intro q hq hinv hnd
    by_cases hc : q.1 ∈ mappedNames sc cc
    · rcases List.mem_filterMap.mp hc with ⟨p, hp, hf⟩
      rcases Option.map_eq_some'.mp hf with ⟨u, hu, hname⟩
      rcases matchFor_mem cc p.1 u hu with ⟨k, hk⟩
      have hk1 : k = u.name := hinv (k, u) hk
      rw [hk1, hname] at hk
      have hq2 : (q.1, q.2) ∈ cc := by rw [Prod.mk.eta]; exact hq
      have huq : u = q.2 := assoc_value_unique cc hnd q.1 u q.2 hk hq2
      refine ⟨createMapping (some p.2) (matchFor cc p.1), ?_, ?_⟩
      · exact List.mem_append_left _ (List.mem_map_of_mem
          (fun r : String × TestClass => createMapping (some r.2) (matchFor cc r.1)) hp)
      · rw [hu]
        show u.file_path = q.2.file_path
        rw [huq]
    · refine ⟨createMapping none (some q.2), ?_, rfl⟩
      apply List.mem_append_right
      apply List.mem_map_of_mem
      rw [List.mem_filter]
      refine ⟨hq, ?_⟩
      simp only [Bool.not_eq_true']
      rw [← Bool.not_eq_true]
      intro hcon
      exact hc (List.mem_of_elem_eq_true hcon)

/-- C1 counterexample: with two Swift units both matching the single C#
unit (one exactly, one after normalization), that C# unit's file appears in
two mappings, not exactly one. -/
theorem claim_C1_counterexample :
    (createMappings dupSwiftCorpus dupCsharpCorpus).countP
        (fun m => m.csharp_file == "B.cs") = 2
    ∧ ¬ ((createMappings dupSwiftCorpus dupCsharpCorpus).countP
        (fun m => m.csharp_file == "B.cs") = 1) := by
  constructor <;> decide

/-- Witness for C1 amended at the duplicate-match corpora. -/
theorem claim_C1_amended_witness :
    ((createMappings dupSwiftCorpus dupCsharpCorpus).length
      = matchedPairCount dupSwiftCorpus dupCsharpCorpus
        + unmatchedSwiftCount dupSwiftCorpus dupCsharpCorpus
        + unmatchedCsharpCount dupSwiftCorpus dupCsharpCorpus)
    ∧ (createMappings dupSwiftCorpus dupCsharpCorpus).countP
        (fun m => m.swift_file == "A1.swift") = 1 :=
  ⟨(claim_C1_amended dupSwiftCorpus dupCsharpCorpus).1,
   (claim_C1_amended dupSwiftCorpus dupCsharpCorpus).2.1
     ("AccountTests", dupSwiftA1) (by decide) (by decide) (by decide)⟩

/-! ### C10 -/

/-- Unfolding equation of `lastOkNamed` on a cons cell. -/
lemma lastOkNamed_cons (r : Except String TestClass)
    (rs : List (Except String TestClass)) (n : String) :
    lastOkNamed (r :: rs) n
      = (match lastOkNamed rs n with
         | some u => some u
         | none =>
           match r with
           | Except.ok tc => if tc.name == n then some tc else none
           | Except.error _ => none) := rfl

/-- Replacing the value stored under `k` makes the lookup of `k` return the
new pair. -/
lemma find?_map_replace (d : List (String × TestClass)) (k : String) (v : TestClass)
    (h : d.any (fun p => p.1 == k) = true) :
    (d.map (fun p => if p.1 == k then (k, v) else p)).find? (fun p => p.1 == k)
      = some (k, v) := by
  induction d with
  | nil => cases h
  | cons p d ih =>
    rw [List.map_cons]
    by_cases hp : p.1 = k
    · have hb : (((k, v) : String × TestClass).1 == k) = true := by simp
      rw [if_pos (beq_iff_eq.mpr hp)]
      simp only [List.find?_cons, hb]
    · have hb : (p.1 == k) = false := beq_eq_false_iff_ne.mpr hp
      rw [if_neg (fun hcon => hp (beq_iff_eq.mp hcon))]
      simp only [List.find?_cons, hb]
      apply ih
      simp only [List.any_cons, Bool.or_eq_true] at h
      rcases h with h | h
      · exact absurd (beq_iff_eq.mp h) hp
      · exact h

/-- Replacing the value stored under `k` does not affect the lookup of a
different key. -/
lemma find?_map_replace_other (d : List (String × TestClass)) (k n : String)
    (v : TestClass) (hn : n ≠ k) :
    (d.map (fun p => if p.1 == k then (k, v) else p)).find? (fun p => p.1 == n)
      = d.find? (fun p => p.1 == n) := by
  induction d with
  | nil => rfl
  | cons p d ih =>
    rw [List.map_cons]
    by_cases hp : p.1 = k
    · have h1 : (((k, v) : String × TestClass).1 == n) = false :=
        beq_eq_false_iff_ne.mpr (fun hcon => hn hcon.symm)
      have h2 : (p.1 == n) = false :=
        beq_eq_false_iff_ne.mpr (fun hcon => hn (hp.symm.trans hcon).symm)
      rw [if_pos (beq_iff_eq.mpr hp)]
      simp only [List.find?_cons, h1, h2]
      exact ih
    · rw [if_neg (fun hcon => hp (beq_iff_eq.mp hcon))]
      by_cases hpn : p.1 = n
      · have h1 : (p.1 == n) = true := beq_iff_eq.mpr hpn
        simp only [List.find?_cons, h1]
      · have h1 : (p.1 == n) = false := beq_eq_false_iff_ne.mpr hpn
        simp only [List.find?_cons, h1]
        exact ih

/-- After `d[k] = v`, looking up `k` yields the new value. -/
lemma dictInsert_find?_self (d : List (String × TestClass)) (k : String)
    (v : TestClass) :
    (dictInsert d k v).find? (fun p => p.1 == k) = some (k, v) := by
  unfold dictInsert
  by_cases h : (d.any (fun p => p.1 == k) : Prop)
  · rw [if_pos h]
    exact find?_map_replace d k v h
  · rw [if_neg h, List.find?_append]
    have hnone : d.find? (fun p => p.1 == k) = none := by
      rw [List.find?_eq_none]
      intro x hx hbx
      exact h (List.any_eq_true.mpr ⟨x, hx, hbx⟩)
    have hb : (((k, v) : String × TestClass).1 == k) = true := by simp
    rw [hnone]
    simp only [Option.none_or, List.find?_cons, hb]

/-- After `d[k] = v`, looking up a different key is unchanged. -/
lemma dictInsert_find?_other (d : List (String × TestClass)) (k n : String)
    (v : TestClass) (hn : n ≠ k) :
    (dictInsert d k v).find? (fun p => p.1 == n) = d.find? (fun p => p.1 == n) := by
  unfold dictInsert
  by_cases h : (d.any (fun p => p.1 == k) : Prop)
  · rw [if_pos h]
    exact find?_map_replace_other d k n v hn
  · rw [if_neg h, List.find?_append]
    cases hd : d.find? (fun p => p.1 == n) with
    | some a => rfl
    | none =>
      have hb : (((k, v) : String × TestClass).1 == n) = false :=
        beq_eq_false_iff_ne.mpr (fun hcon => hn hcon.symm)
      simp only [Option.none_or, List.find?_cons, hb, List.find?_nil]

/-- `d[k] = v` keeps the dictionary's keys pairwise distinct. -/
lemma dictInsert_keys_nodup (d : List (String × TestClass)) (k : String)
    (v : TestClass) (h : (d.map Prod.fst).Nodup) :
    ((dictInsert d k v).map Prod.fst).Nodup := by
  unfold dictInsert
  by_cases ha : (d.any (fun p => p.1 == k) : Prop)
  · rw [if_pos ha]
    have hkeys : (d.map (fun p => if p.1 == k then (k, v) else p)).map Prod.fst
        = d.map Prod.fst := by
      rw [List.map_map]
      apply List.map_eq_map_iff.mpr
      intro p hp
      by_cases hp1 : p.1 = k
      · simp [Function.comp, beq_iff_eq, hp1]
      · simp [Function.comp, beq_iff_eq, hp1]
    rw [hkeys]
    exact h
  · rw [if_neg ha, List.map_append]
    apply List.Nodup.append h (List.nodup_singleton k)
    intro a ha1 ha2
    rcases List.mem_map.mp ha1 with ⟨p, hp, hpa⟩
    have hak : a = k := List.mem_singleton.mp ha2
    apply ha
    exact List.any_eq_true.mpr ⟨p, hp, beq_iff_eq.mpr (hpa.trans hak)⟩

/-- Dictionary lookup after the scanning loop: the value stored under `n` is
the last successfully extracted unit named `n`, and the pre-existing entry
otherwise; the error counter never affects the corpus. -/
lemma scan_corpus_find? (rs : List (Except String TestClass)) :
    ∀ (d : List (String × TestClass)) (k : Nat) (n : String),
      ((rs.foldl scanStep (d, k)).1).find? (fun p => p.1 == n)
        = (match lastOkNamed rs n with
           | some u => some (n, u)
           | none => d.find? (fun p => p.1 == n)) := by
  induction rs with
  | nil => intro d k n; rfl
  | cons r rs ih =>
    intro d k n
    cases r with
    | error e =>
      rw [List.foldl_cons]
      have hstep : scanStep (d, k) (Except.error e) = (d, k + 1) := rfl
      rw [hstep, ih d (k + 1) n]
      cases hx : lastOkNamed rs n with
      | some u => simp [lastOkNamed_cons, hx]
      | none => simp [lastOkNamed_cons, hx]
    | ok tc =>
      rw [List.foldl_cons]
      have hstep : scanStep (d, k) (Except.ok tc) = (dictInsert d tc.name tc, k) := rfl
      rw [hstep, ih (dictInsert d tc.name tc) k n]
      cases hx : lastOkNamed rs n with
      | some u => simp [lastOkNamed_cons, hx]
      | none =>
        by_cases hn : tc.name = n
        · have hb : (tc.name == n) = true := beq_iff_eq.mpr hn
          rw [← hn, dictInsert_find?_self d tc.name tc]
          simp [lastOkNamed_cons, hx, hb, hn]
        · have hb : (tc.name == n) = false := beq_eq_false_iff_ne.mpr hn
          rw [dictInsert_find?_other d tc.name n tc (fun hcon => hn hcon.symm)]
          simp [lastOkNamed_cons, hx, hb]

/-- The scanning loop keeps the corpus keys pairwise distinct. -/
lemma scan_corpus_keys_nodup (rs : List (Except String TestClass)) :
    ∀ (d : List (String × TestClass)) (k : Nat),
      (d.map Prod.fst).Nodup →
      (((rs.foldl scanStep (d, k)).1).map Prod.fst).Nodup := by
  induction rs with
  | nil => intro d k h; exact h
  | cons r rs ih =>
    intro d k h
    cases r with
    | error e =>
      rw [List.foldl_cons]
      exact ih d (k + 1) h
    | ok tc =>
      rw [List.foldl_cons]
      exact ih (dictInsert d tc.name tc) k (dictInsert_keys_nodup d tc.name tc h)

/-- Every file name appearing in a mapping is either the `"Missing"`
sentinel or the origin file of a unit of the respective corpus. -/
lemma mapping_files_from_corpora (sc cc : List (String × TestClass))
    (m : ConversionMapping) (hm : m ∈ createMappings sc cc) :
    (m.swift_file = "Missing" ∨ ∃ p ∈ sc, m.swift_file = p.2.file_path)
    ∧ (m.csharp_file = "Missing"
       ∨ ∃ k u, (k, u) ∈ cc ∧ m.csharp_file = u.file_path) := by
  unfold createMappings at hm
  rcases List.mem_append.mp hm with h1 | h2
  · rcases List.mem_map.mp h1 with ⟨p, hp, rfl⟩
    constructor
    · right
      exact ⟨p, hp, rfl⟩
    · cases hmf : matchFor cc p.1 with
      | none =>
        left
        rfl
      | some u =>
        right
        rcases matchFor_mem cc p.1 u hmf with ⟨k, hk⟩
        exact ⟨k, u, hk, rfl⟩
  · rcases List.mem_map.mp h2 with ⟨q, hq, rfl⟩
    constructor
    · left
      rfl
    · right
      refine ⟨q.1, q.2, ?_, rfl⟩
      rw [Prod.mk.eta]
      exact (List.mem_filter.mp hq).1

/-- C10: each corpus dictionary is keyed by extracted class name, so a
later-scanned file with the same class name replaces the earlier unit: keys
stay pairwise distinct, lookup returns the last extracted unit of that name,
and a unit absent from the surviving corpora appears in no mapping. -/
theorem claim_C10_overwrite :
    ∀ (rs : List (Except String TestClass)) (n : String),
      ((scanFold rs).1.map Prod.fst).Nodup
      ∧ ((scanFold rs).1.find? (fun p => p.1 == n)
          = (match lastOkNamed rs n with
             | some u => some (n, u)
             | none => none))
      ∧ (∀ (cc : List (String × TestClass)) (u : TestClass),
          Except.ok u ∈ rs →
          (∀ p ∈ (scanFold rs).1, p.2.file_path ≠ u.file_path) →
          (∀ p ∈ cc, p.2.file_path ≠ u.file_path) →
          u.file_path ≠ "Missing" →
          ∀ m ∈ createMappings (scanFold rs).1 cc,
            m.swift_file ≠ u.file_path ∧ m.csharp_file ≠ u.file_path) := by
  intro rs n
  refine ⟨?_, ?_, ?_⟩
  · exact scan_corpus_keys_nodup rs [] 0 (by simp)
  · have h := scan_corpus_find? rs [] 0 n
    cases hx : lastOkNamed rs n with
    | some u =>
      simp only [hx] at h ⊢
      exact h
    | none =>
      simp only [hx, List.find?_nil] at h ⊢
      exact h
  · intro cc u _ hcorp hcc hnm m hm
    obtain ⟨hsw, hcs⟩ := mapping_files_from_corpora _ _ m hm
    constructor
    · rcases hsw with h | ⟨p, hp, he⟩
      · rw [h]
        exact fun hcon => hnm hcon.symm
      · rw [he]
        exact hcorp p hp
    · rcases hcs with h | ⟨k, w, hk, he⟩
      · rw [h]
        exact fun hcon => hnm hcon.symm
      · rw [he]
        exact hcc (k, w) hk

/-- Witness for C10: two files both named `AccountTests`; the later one's
unit survives, and the earlier one's file appears in no mapping. -/
theorem claim_C10_overwrite_witness :
    (scanFold dupScanResults).1.find? (fun p => p.1 == "AccountTests")
      = some ("AccountTests", lateUnit)
    ∧ ((createMapping (some lateUnit) (matchFor [] "AccountTests")).swift_file
        ≠ "A1.swift"
       ∧ (createMapping (some lateUnit) (matchFor [] "AccountTests")).csharp_file
        ≠ "A1.swift") := by
  constructor
  · rw [(claim_C10_overwrite dupScanResults "AccountTests").2.1]
    decide
  · exact (claim_C10_overwrite dupScanResults "AccountTests").2.2 [] earlyUnit
      (List.mem_cons_self (Except.ok earlyUnit) [Except.ok lateUnit])
      (by decide) (by decide) (by decide)
      (createMapping (some lateUnit) (matchFor [] "AccountTests"))
      (by decide)
